import Mathlib

/-!
Verification of src/Aggregator/Aggregator.py against its specification.

The module has three parts:
  - class AggregatorMapping: stores a list of index lists (`indices`,
    `size`), aggregates a fine 1D data array onto the coarse grid
    (`__call__`), and serializes the mapping (`save_csv_gz`);
  - class Aggregator: builds the index lists from polygon paths and
    points (`__init__`), using the bounding-box extent test
    `path.get_extents().size.any()` before `path.contains_points`;
  - free function load_csv_gz: deserializes a mapping.

Shallow-embedding conventions used throughout:
  - numpy masked values are pairs of a payload and a Boolean mask
    (structure MaskedVal); the reduction `method` is a total function on
    lists of masked values returning one masked value;
  - numpy fancy indexing data[idn] is an all-or-nothing gather that
    raises IndexError when some index is out of range (fancyIndex,
    error constructor AggError.indexRange);
  - the gzipped csv file is modelled as its table of rows of string
    fields (gzip and the csv line layer are external libraries; the csv
    reader yields an empty row for a blank line, so an empty index list
    survives the file layer unchanged);
  - CPython str() on a non-negative int produces the decimal digit
    string (pyStrNat), and int() on such a token parses it back, raising
    ValueError carrying the offending token for a non-integer token
    (pyIntNat?, error constructor ParseErr.invalidLiteral).  The
    embedding restricts int() to the token grammar the serializer emits:
    non-negative decimal literals;
  - print side effects are modelled as an explicit event list: the loops
    of __call__ and Aggregator.__init__ return the list of counters n at
    which a progress message is printed, next to their result;
  - matplotlib.path.Path is an external geometry object; it is modelled
    by what the Aggregator code observes of it: the width and height of
    its bounding box and its point-containment predicate (MPath).
-/

/-- Error raised by numpy fancy indexing when an index is out of range
for the indexed array (IndexError). -/
inductive AggError : Type where
  | indexRange : AggError
deriving DecidableEq

/-- Error raised by CPython int() on a token that is not an integer
literal (ValueError); it carries the offending token. -/
inductive ParseErr : Type where
  | invalidLiteral : String → ParseErr
deriving DecidableEq

/-- A numpy masked-array element: a payload value and a Boolean mask
(true means the value is missing). -/
structure MaskedVal (α : Type) : Type where
  val : α
  mask : Bool
deriving DecidableEq

/-- Sequential effectful map, the semantics both of a Python list
comprehension whose body may raise and of numpy fancy indexing: elements
are processed left to right and the first exception aborts the whole
computation with no partial result. -/
def exceptMap (f : β → Except ε γ) : List β → Except ε (List γ)
  | [] => .ok []
  | x :: xs =>
    match f x with
    | .error e => .error e
    | .ok y =>
      match exceptMap f xs with
      | .error e => .error e
      | .ok ys => .ok (y :: ys)

/-- Embedding of numpy fancy indexing data[idn]: gather the elements of
data at the positions listed in idn, raising IndexError
(AggError.indexRange) when some position is out of range. -/
def fancyIndex (data : List μ) (idn : List Nat) : Except AggError (List μ) :=
  exceptMap (fun i =>
    match data.get? i with
    | some v => .ok v
    | none => .error AggError.indexRange) idn

/-- Embedding of class AggregatorMapping: its only state is the list of
index lists stored by __init__. -/
structure AggregatorMapping : Type where
  indices : List (List Nat)
deriving DecidableEq

/-- Embedding of AggregatorMapping.__init__: the incoming sequence of
index lists is materialized into a list (at the level of list values the
copy is the list itself; object identity of the inner lists is studied
separately in the PyHeap model below). -/
def mkAggregatorMapping (indices : List (List Nat)) : AggregatorMapping :=
  { indices := indices }

/-- Embedding of the attribute size set by __init__:
self.size = len(self.indices). -/
def AggregatorMapping.size (m : AggregatorMapping) : Nat :=
  m.indices.length

/-- Body of one iteration of the loop of AggregatorMapping.__call__ for
index list idn: an empty index list (falsy in Python) leaves the cell at
its initial fill value fv; otherwise the fine data is gathered with
fancy indexing (which may raise IndexError), reduced with method, and
the result is fv where the reduced value is masked, the reduced value
otherwise (the numpy expression where(getmaskarray(aggregates), fv,
aggregates)). -/
def aggregateCell (data : List (MaskedVal α))
    (method : List (MaskedVal α) → MaskedVal α) (fv : α) :
    List Nat → Except AggError α
  | [] => .ok fv
  | i :: rest =>
    match fancyIndex data (i :: rest) with
    | .error e => .error e
    | .ok vals =>
      let aggregates := method vals
      .ok (if aggregates.mask then fv else aggregates.val)

/-- The loop of AggregatorMapping.__call__ over enumerate(self.indices),
with the cell counter n threaded through.  The second component records
the progress print events: with progress interval p (0 encodes the
Python default progress=False, which is falsy), the counter n is
reported whenever n % p == 0.  A raised IndexError aborts the loop; the
events printed before the raise are kept. -/
def aggLoop (data : List (MaskedVal α))
    (method : List (MaskedVal α) → MaskedVal α) (fv : α) (p : Nat) :
    Nat → List (List Nat) → Except AggError (List α) × List Nat
  | _, [] => (.ok [], [])
  | n, idn :: rest =>
    let ev : List Nat := if p ≠ 0 ∧ n % p = 0 then [n] else []
    match aggregateCell data method fv idn with
    | .error e => (.error e, ev)
    | .ok v =>
      let r := aggLoop data method fv p (n + 1) rest
      ((match r.1 with
        | .error e => .error e
        | .ok l => .ok (v :: l)), ev ++ r.2)

/-- Embedding of AggregatorMapping.__call__ with its progress parameter:
the coarse array (or the IndexError aborting the call) together with the
progress events. -/
def AggregatorMapping.callP (m : AggregatorMapping)
    (data : List (MaskedVal α)) (method : List (MaskedVal α) → MaskedVal α)
    (fv : α) (p : Nat) : Except AggError (List α) × List Nat :=
  aggLoop data method fv p 0 m.indices

/-- Embedding of AggregatorMapping.__call__ at its default
progress=False: just the coarse array or the IndexError. -/
def AggregatorMapping.call (m : AggregatorMapping)
    (data : List (MaskedVal α)) (method : List (MaskedVal α) → MaskedVal α)
    (fv : α) : Except AggError (List α) :=
  (m.callP data method fv 0).1

/-- Embedding of numpy.ma.median as used for the default method of
__call__, on rational payloads: the median of the unmasked entries,
averaging the two middle entries of the sorted unmasked values for an
even count; a fully masked input yields the masked constant. -/
def maMedian (vals : List (MaskedVal ℚ)) : MaskedVal ℚ :=
  let xs := (vals.filter (fun v => !v.mask)).map MaskedVal.val
  if xs.length = 0 then { val := 0, mask := true }
  else
    let s := List.insertionSort (fun a b => a ≤ b) xs
    if xs.length % 2 = 1 then { val := s.getD (xs.length / 2) 0, mask := false }
    else { val := (s.getD (xs.length / 2 - 1) 0 + s.getD (xs.length / 2) 0) / 2,
           mask := false }

/-- What the Aggregator code observes of an external
matplotlib.path.Path object: the width and height of the bounding box
returned by get_extents() (its size attribute), and the
point-containment predicate behind contains_points.  The geometry
algorithms live in matplotlib, outside this repository, so they are
modelled as abstract data. -/
structure MPath (Pt : Type) : Type where
  extentWidth : ℚ
  extentHeight : ℚ
  contains : Pt → Bool

/-- Embedding of path.contains_points(points): one Boolean per point, in
point order. -/
def MPath.contains_points (path : MPath Pt) (points : List Pt) : List Bool :=
  points.map path.contains

/-- Embedding of numpy where(bs)[0] on a Boolean vector: the positions
holding true, in increasing order. -/
def npWhere (bs : List Bool) : List Nat :=
  (bs.enum.filter (fun ib => ib.2)).map Prod.fst

/-- One iteration of the loop of Aggregator.__init__ for one path: the
guard path.get_extents().size.any() runs the containment scan whenever
the bounding box width or height is nonzero; the inside indices extend
the (empty) index list only when there is at least one.  Both the guard
being false and an empty inside set leave the index list empty. -/
def cellIndices (path : MPath Pt) (points : List Pt) : List Nat :=
  if path.extentWidth ≠ 0 ∨ path.extentHeight ≠ 0 then
    let inside := npWhere (path.contains_points points)
    if 0 < inside.length then inside else []
  else []

/-- The loop of Aggregator.__init__ over zip(paths, idx), with the
progress counter n threaded through; as in aggLoop the second component
records the progress print events (p = 0 encodes progress=False). -/
def buildLoop (points : List Pt) (p : Nat) :
    Nat → List (MPath Pt) → List (List Nat) × List Nat
  | _, [] => ([], [])
  | n, path :: rest =>
    let ev : List Nat := if p ≠ 0 ∧ n % p = 0 then [n] else []
    let r := buildLoop points p (n + 1) rest
    (cellIndices path points :: r.1, ev ++ r.2)

/-- Embedding of Aggregator.__init__ with its progress parameter: the
index lists it stores in self.indices, together with the progress
events. -/
def Aggregator.buildP (paths : List (MPath Pt)) (points : List Pt)
    (p : Nat) : List (List Nat) × List Nat :=
  buildLoop points p 0 paths

/-- Embedding of Aggregator.__init__ at its default progress=False: the
index lists stored in self.indices. -/
def Aggregator.build (paths : List (MPath Pt)) (points : List Pt) :
    List (List Nat) := (Aggregator.buildP paths points 0).1

/-- Decimal digit character for one digit value (the last case is only
reached for the digit 9). -/
def decChar : Nat → Char
  | 0 => '0' | 1 => '1' | 2 => '2' | 3 => '3' | 4 => '4'
  | 5 => '5' | 6 => '6' | 7 => '7' | 8 => '8' | _ => '9'

/-- Numeric value of a decimal digit character. -/
def decVal (c : Char) : Nat := c.toNat - 48

/-- Decimal digit list of a positive natural number, most significant
digit first (empty for 0). -/
def decDigits (n : Nat) : List Char :=
  if h : n = 0 then []
  else decDigits (n / 10) ++ [decChar (n % 10)]
termination_by n
decreasing_by exact Nat.div_lt_self (Nat.pos_of_ne_zero h) (by omega)

/-- Model of CPython str() on a non-negative int, the form in which the
csv writer of save_csv_gz renders each index field. -/
def pyStrNat (n : Nat) : String :=
  if n = 0 then "0" else String.mk (decDigits n)

/-- Model of CPython int() restricted to the token grammar the
serializer emits: a token that is a nonempty string of decimal digits
parses to its value, anything else is a non-integer token and yields
none (int() raises ValueError there). -/
def pyIntNat? (s : String) : Option Nat :=
  if s.data ≠ [] ∧ s.data.all Char.isDigit then
    some (s.data.foldl (fun a c => a * 10 + decVal c) 0)
  else none

/-- The int(n) call of load_csv_gz on one csv field: a non-integer token
raises ValueError carrying the token. -/
def pyInt (s : String) : Except ParseErr Nat :=
  match pyIntNat? s with
  | some n => .ok n
  | none => .error (ParseErr.invalidLiteral s)

/-- Embedding of AggregatorMapping.save_csv_gz at the level of the csv
table it writes: one row per index list, one decimal field per index. -/
def saveTable (indices : List (List Nat)) : List (List String) :=
  indices.map (fun l => l.map pyStrNat)

/-- The csv table written by m.save_csv_gz(filename). -/
def AggregatorMapping.save_csv_gz (m : AggregatorMapping) :
    List (List String) := saveTable m.indices

/-- The nested comprehension of load_csv_gz,
[[int(n) for n in line] for line in csv]: rows are parsed left to right,
fields left to right, and the first ValueError aborts the whole call
with no partial result. -/
def loadTable (t : List (List String)) : Except ParseErr (List (List Nat)) :=
  exceptMap (fun line => exceptMap pyInt line) t

/-- Embedding of load_csv_gz on a csv table: parse every field and wrap
the index lists in an AggregatorMapping. -/
def load_csv_gz (t : List (List String)) : Except ParseErr AggregatorMapping :=
  match loadTable t with
  | .ok idx => .ok (mkAggregatorMapping idx)
  | .error e => .error e

/-- Object-identity model of the inner index lists for
AggregatorMapping.__init__: a heap maps each reference to the current
contents of the Python list object it denotes. -/
def PyHeap : Type := Nat → List Nat

/-- The comprehension [idx for idx in indices] of __init__ at the
object-identity level: it builds a fresh outer list whose elements are
the same inner list references, copying no inner list. -/
def initIndicesRefs (indices : List Nat) : List Nat :=
  indices.map (fun idx => idx)

/-- The index lists an AggregatorMapping holding the given inner-list
references presents under a given heap. -/
def readIndices (h : PyHeap) (refs : List Nat) : List (List Nat) :=
  refs.map (fun r => h r)

theorem exceptMap_ok_length {f : β → Except ε γ} :
    ∀ {l : List β} {out : List γ}, exceptMap f l = .ok out →
      out.length = l.length := by
  intro l
  induction l with
  | nil =>
    intro out h
    simp only [exceptMap] at h
    cases h
    rfl
  | cons a as ih =>
    intro out h
    simp only [exceptMap] at h
    cases hfa : f a with
    | error e => rw [hfa] at h; exact Except.noConfusion h
    | ok y =>
      rw [hfa] at h
      cases hrest : exceptMap f as with
      | error e => rw [hrest] at h; exact Except.noConfusion h
      | ok ys =>
        rw [hrest] at h
        cases h
        simpa using ih hrest

theorem exceptMap_ok_get {f : β → Except ε γ} :
    ∀ {l : List β} {out : List γ}, exceptMap f l = .ok out →
      ∀ {k : Nat} {x : β}, l.get? k = some x →
        ∃ y, f x = .ok y ∧ out.get? k = some y := by
  intro l
  induction l with
  | nil =>
    intro out h k x hk
    simp at hk
  | cons a as ih =>
    intro out h k x hk
    simp only [exceptMap] at h
    cases hfa : f a with
    | error e => rw [hfa] at h; exact Except.noConfusion h
    | ok y =>
      rw [hfa] at h
      cases hrest : exceptMap f as with
      | error e => rw [hrest] at h; exact Except.noConfusion h
      | ok ys =>
        rw [hrest] at h
        cases h
        cases k with
        | zero =>
          cases hk
          exact ⟨y, hfa, rfl⟩
        | succ k =>
          obtain ⟨y', h1, h2⟩ := ih hrest hk
          exact ⟨y', h1, h2⟩

theorem exceptMap_ok_forall {f : β → Except ε γ} :
    ∀ {l : List β} {out : List γ}, exceptMap f l = .ok out →
      ∀ x ∈ l, ∃ y, f x = .ok y := by
  intro l
  induction l with
  | nil =>
    intro out _ x hx
    simp at hx
  | cons a as ih =>
    intro out h x hx
    simp only [exceptMap] at h
    cases hfa : f a with
    | error e => rw [hfa] at h; exact Except.noConfusion h
    | ok y =>
      rw [hfa] at h
      cases hrest : exceptMap f as with
      | error e => rw [hrest] at h; exact Except.noConfusion h
      | ok ys =>
        rcases List.mem_cons.1 hx with rfl | hx
        · exact ⟨y, hfa⟩
        · exact ih hrest x hx

theorem exceptMap_error_mem {f : β → Except ε γ} :
    ∀ {l : List β} {e : ε}, exceptMap f l = .error e →
      ∃ x ∈ l, f x = .error e := by
  intro l
  induction l with
  | nil =>
    intro e h
    simp only [exceptMap] at h
    exact Except.noConfusion h
  | cons a as ih =>
    intro e h
    simp only [exceptMap] at h
    cases hfa : f a with
    | error e0 =>
      rw [hfa] at h
      cases h
      exact ⟨a, List.mem_cons_self a as, hfa⟩
    | ok y =>
      rw [hfa] at h
      cases hrest : exceptMap f as with
      | error e0 =>
        rw [hrest] at h
        cases h
        obtain ⟨x, hx, hfx⟩ := ih hrest
        exact ⟨x, List.mem_cons_of_mem a hx, hfx⟩
      | ok ys => rw [hrest] at h; exact Except.noConfusion h

theorem aggLoop_fst {data : List (MaskedVal α)}
    {method : List (MaskedVal α) → MaskedVal α} {fv : α} {p : Nat} :
    ∀ {n : Nat} {ls : List (List Nat)},
      (aggLoop data method fv p n ls).1 =
        exceptMap (aggregateCell data method fv) ls := by
  intro n ls
  induction ls generalizing n with
  | nil => rfl
  | cons idn rest ih =>
    simp only [aggLoop, exceptMap]
    cases hcell : aggregateCell data method fv idn with
    | error e => rfl
    | ok v =>
      show (match (aggLoop data method fv p (n + 1) rest).1 with
        | Except.error e => Except.error e
        | Except.ok l => Except.ok (v :: l)) = _
      rw [ih]
      cases exceptMap (aggregateCell data method fv) rest <;> rfl

theorem call_eq (m : AggregatorMapping) (data : List (MaskedVal α))
    (method : List (MaskedVal α) → MaskedVal α) (fv : α) :
    m.call data method fv =
      exceptMap (aggregateCell data method fv) m.indices := by
  unfold AggregatorMapping.call AggregatorMapping.callP
  exact aggLoop_fst

theorem buildLoop_fst {points : List Pt} {p : Nat} :
    ∀ {n : Nat} {paths : List (MPath Pt)},
      (buildLoop points p n paths).1 =
        paths.map (fun path => cellIndices path points) := by
  intro n paths
  induction paths generalizing n with
  | nil => rfl
  | cons path rest ih =>
    simp only [buildLoop, List.map_cons]
    rw [ih]

theorem build_eq (paths : List (MPath Pt)) (points : List Pt) :
    Aggregator.build paths points =
      paths.map (fun path => cellIndices path points) := by
  unfold Aggregator.build Aggregator.buildP
  exact buildLoop_fst

theorem decVal_decChar {d : Nat} (hd : d < 10) : decVal (decChar d) = d := by
  interval_cases d <;> rfl

theorem isDigit_decChar {d : Nat} (hd : d < 10) :
    (decChar d).isDigit = true := by
  interval_cases d <;> rfl

theorem decDigits_ne_nil {n : Nat} (hn : n ≠ 0) : decDigits n ≠ [] := by
  rw [decDigits, dif_neg hn]
  simp

theorem decDigits_all_digits (n : Nat) :
    ∀ c ∈ decDigits n, c.isDigit = true := by
  induction n using Nat.strong_induction_on with
  | _ n ih =>
    intro c hc
    by_cases hn : n = 0
    · rw [hn, decDigits] at hc
      simp at hc
    · rw [decDigits, dif_neg hn] at hc
      rcases List.mem_append.1 hc with hc | hc
      · exact ih (n / 10) (Nat.div_lt_self (Nat.pos_of_ne_zero hn) (by omega)) c hc
      · rcases List.mem_singleton.1 hc with rfl
        exact isDigit_decChar (Nat.mod_lt n (by omega))

theorem foldl_decDigits (n : Nat) : ∀ a : Nat,
    (decDigits n).foldl (fun a c => a * 10 + decVal c) a =
      a * 10 ^ (decDigits n).length + n := by
  induction n using Nat.strong_induction_on with
  | _ n ih =>
    intro a
    by_cases hn : n = 0
    · rw [hn, decDigits]
      simp
    · rw [decDigits, dif_neg hn]
      rw [List.foldl_append, List.length_append]
      rw [ih (n / 10) (Nat.div_lt_self (Nat.pos_of_ne_zero hn) (by omega)) a]
      simp only [List.foldl_cons, List.foldl_nil, List.length_singleton]
      rw [decVal_decChar (Nat.mod_lt n (by omega))]
      rw [pow_succ, ← mul_assoc]
      generalize a * 10 ^ (decDigits (n / 10)).length = X
      omega

theorem pyIntNat?_pyStrNat (n : Nat) : pyIntNat? (pyStrNat n) = some n := by
  by_cases hn : n = 0
  · rw [hn]
    rfl
  · rw [pyStrNat, if_neg hn, pyIntNat?]
    rw [if_pos]
    · rw [show (String.mk (decDigits n)).data = decDigits n from rfl]
      rw [foldl_decDigits n 0]
      simp
    · constructor
      · rw [show (String.mk (decDigits n)).data = decDigits n from rfl]
        exact decDigits_ne_nil hn
      · rw [show (String.mk (decDigits n)).data = decDigits n from rfl]
        exact List.all_eq_true.2 (decDigits_all_digits n)

theorem pyInt_pyStrNat (n : Nat) : pyInt (pyStrNat n) = .ok n := by
  rw [pyInt, pyIntNat?_pyStrNat]

theorem row_roundtrip (l : List Nat) :
    exceptMap pyInt (l.map pyStrNat) = .ok l := by
  induction l with
  | nil => rfl
  | cons n rest ih =>
    simp only [List.map_cons, exceptMap]
    rw [pyInt_pyStrNat, ih]

theorem loadTable_saveTable (idx : List (List Nat)) :
    loadTable (saveTable idx) = .ok idx := by
  unfold loadTable saveTable
  induction idx with
  | nil => rfl
  | cons l rest ih =>
    simp only [List.map_cons, exceptMap]
    rw [row_roundtrip, ih]

theorem npWhere_sublist_range (bs : List Bool) :
    List.Sublist (npWhere bs) (List.range bs.length) := by
  have h1 : List.Sublist (bs.enum.filter (fun ib => ib.2)) bs.enum :=
    List.filter_sublist bs.enum
  have h2 := h1.map Prod.fst
  rw [List.enum_map_fst] at h2
  exact h2

theorem cellIndices_cases (path : MPath Pt) (points : List Pt) :
    cellIndices path points = [] ∨
      cellIndices path points = npWhere (path.contains_points points) := by
  unfold cellIndices
  dsimp only
  split
  · split
    · right; rfl
    · left; rfl
  · left; rfl

theorem row_error_token {line : List String} {e : ParseErr}
    (h : exceptMap pyInt line = .error e) :
    ∃ tok ∈ line, e = ParseErr.invalidLiteral tok ∧ pyIntNat? tok = none := by
  obtain ⟨tok, htok, hf⟩ := exceptMap_error_mem h
  refine ⟨tok, htok, ?_⟩
  simp only [pyInt] at hf
  cases hp : pyIntNat? tok with
  | none =>
    rw [hp] at hf
    cases hf
    exact ⟨rfl, rfl⟩
  | some n =>
    rw [hp] at hf
    exact Except.noConfusion hf

/-- A matplotlib path collapsed onto a horizontal segment: its bounding
box has width 1 and height 0.  matplotlib leaves the classification of
points on the boundary open, so an instantiation of the external
containment primitive may classify a point lying on the segment as
inside; this one does. -/
def linePath : MPath (ℚ × ℚ) :=
  { extentWidth := 1, extentHeight := 0, contains := fun _ => true }

/-- A matplotlib path collapsed onto a single point: both bounding box
extents are zero.  Its containment primitive claims every point is
inside, so any nonempty index list for it would prove that the
primitive was consulted. -/
def pointPath : MPath (ℚ × ℚ) :=
  { extentWidth := 0, extentHeight := 0, contains := fun _ => true }

/-- The unit square as an external path: bounding box extents 1 and 1,
and a containment primitive holding for the sample points used in the
witnesses below. -/
def squarePath : MPath (ℚ × ℚ) :=
  { extentWidth := 1, extentHeight := 1, contains := fun _ => true }

/-- C1 is corrected, not confirmed: the claim says a polygon whose
bounding box has zero width OR zero height skips containment testing
and gets an empty index list.  The code guard is
path.get_extents().size.any(), which skips only when BOTH extents are
zero.  Here a path whose bounding box is degenerate (height 0) still
has its containment primitive consulted, and the point on its segment
is collected, so the index list is [0], not []. -/
theorem C1_counterexample :
    linePath.extentHeight = 0 ∧
      Aggregator.build [linePath] [((0 : ℚ), (0 : ℚ))] = [[0]] := by
  exact ⟨rfl, rfl⟩

/-- C1 (amended): a polygon whose bounding box has zero width AND zero
height is assigned an empty index list for every point sequence, the
containment test being skipped; a polygon with exactly one zero extent
is not short-circuited. -/
theorem C1_bbox_short_circuit {Pt : Type} (paths : List (MPath Pt))
    (points : List Pt) (k : Nat) (path : MPath Pt)
    (hk : paths.get? k = some path)
    (hw : path.extentWidth = 0) (hh : path.extentHeight = 0) :
    (Aggregator.build paths points).get? k = some [] := by
  have hcell : cellIndices path points = [] := by
    unfold cellIndices
    rw [hw, hh]
    simp
  rw [build_eq, List.get?_map, hk, Option.map_some', hcell]

/-- Witness for C1_bbox_short_circuit at the fully collapsed path
pointPath (both extents zero) and one point. -/
theorem C1_bbox_short_circuit_witness :
    (Aggregator.build [pointPath] [((0 : ℚ), (0 : ℚ))]).get? 0 = some [] :=
  C1_bbox_short_circuit [pointPath] [((0 : ℚ), (0 : ℚ))] 0 pointPath
    rfl rfl rfl

/-- C2: for every AggregatorMapping M, deserializing the serialization
of M succeeds and yields a mapping of the same size with identical
index lists in identical order (any mix of empty and non-empty lists,
both being unconstrained here). -/
theorem C2_roundtrip (m : AggregatorMapping) :
    ∃ m2 : AggregatorMapping, load_csv_gz m.save_csv_gz = .ok m2 ∧
      m2.size = m.size ∧ m2.indices = m.indices := by
  refine ⟨mkAggregatorMapping m.indices, ?_, rfl, rfl⟩
  unfold load_csv_gz AggregatorMapping.save_csv_gz
  rw [loadTable_saveTable]

/-- C3: whenever __call__ returns a coarse array, a cell whose index
list is empty holds the fill value, for every reduction method, fine
array and fill value. -/
theorem C3_fill_value_empty_cell {α : Type} (m : AggregatorMapping)
    (data : List (MaskedVal α)) (method : List (MaskedVal α) → MaskedVal α)
    (fv : α) (k : Nat) (out : List α)
    (hk : m.indices.get? k = some [])
    (hout : m.call data method fv = .ok out) :
    out.get? k = some fv := by
  rw [call_eq] at hout
  obtain ⟨y, hy, hk2⟩ := exceptMap_ok_get hout hk
  cases hy
  exact hk2

/-- Witness for C3_fill_value_empty_cell: cell 0 has no contributing
sample and comes back as the fill value 9. -/
theorem C3_fill_value_empty_cell_witness :
    (mkAggregatorMapping [[], [0]]).call
        [{ val := (5 : ℚ), mask := false }] maMedian 9 = .ok [9, 5] ∧
      ([9, 5] : List ℚ).get? 0 = some 9 :=
  ⟨rfl, C3_fill_value_empty_cell (mkAggregatorMapping [[], [0]])
    [{ val := (5 : ℚ), mask := false }] maMedian 9 0 [9, 5] rfl rfl⟩

/-- C4: whenever __call__ returns a coarse array, a cell with a
non-empty index list whose gather succeeded holds the fill value if the
reduced value is masked and the reduced value otherwise; and the
default reduction numpy.ma.median is masked whenever every gathered
entry is masked, so an all-missing cell comes back as the fill
value. -/
theorem C4_missing_value_policy (m : AggregatorMapping)
    (data : List (MaskedVal ℚ)) (method : List (MaskedVal ℚ) → MaskedVal ℚ)
    (fv : ℚ) (k i0 : Nat) (idn0 : List Nat)
    (vals : List (MaskedVal ℚ)) (out : List ℚ)
    (hk : m.indices.get? k = some (i0 :: idn0))
    (hg : fancyIndex data (i0 :: idn0) = .ok vals)
    (hout : m.call data method fv = .ok out) :
    out.get? k = some (if (method vals).mask then fv else (method vals).val) ∧
      ((∀ v ∈ vals, v.mask = true) → (maMedian vals).mask = true) := by
  constructor
  · rw [call_eq] at hout
    obtain ⟨y, hy, hk2⟩ := exceptMap_ok_get hout hk
    simp only [aggregateCell] at hy
    rw [hg] at hy
    cases hy
    exact hk2
  · intro hall
    have hfil : vals.filter (fun v => !v.mask) = [] := by
      rw [List.filter_eq_nil_iff]
      intro v hv
      rw [hall v hv]
      simp
    unfold maMedian
    rw [hfil]
    rfl

/-- Witness for C4_missing_value_policy: the single gathered entry is
masked, the default median of it is masked, and the cell comes back as
the fill value 7. -/
theorem C4_missing_value_policy_witness :
    ([7] : List ℚ).get? 0 =
        some (if (maMedian [{ val := (3 : ℚ), mask := true }]).mask then 7
          else (maMedian [{ val := (3 : ℚ), mask := true }]).val) ∧
      ((∀ v ∈ ([{ val := (3 : ℚ), mask := true }] : List (MaskedVal ℚ)),
          v.mask = true) →
        (maMedian [{ val := (3 : ℚ), mask := true }]).mask = true) :=
  C4_missing_value_policy (mkAggregatorMapping [[0]])
    [{ val := (3 : ℚ), mask := true }] maMedian 7 0 0 []
    [{ val := (3 : ℚ), mask := true }] [7] rfl rfl rfl

/-- C5: a mapping holding an index at least as large as the fine array
length makes __call__ raise IndexError (no silent truncation or
wrap-around), while the same mapping is accepted without complaint by
__init__ and by the save/load round trip: the error only surfaces at
aggregation time. -/
theorem C5_lazy_index_range_error {α : Type} (m : AggregatorMapping)
    (data : List (MaskedVal α)) (method : List (MaskedVal α) → MaskedVal α)
    (fv : α)
    (h : ∃ idn ∈ m.indices, ∃ i ∈ idn, data.length ≤ i) :
    m.call data method fv = .error AggError.indexRange ∧
      (mkAggregatorMapping m.indices).indices = m.indices ∧
      load_csv_gz m.save_csv_gz = .ok m := by
  obtain ⟨idn, hmem, i, hi, hlen⟩ := h
  refine ⟨?_, rfl, ?_⟩
  · cases hcall : m.call data method fv with
    | ok out =>
      exfalso
      rw [call_eq] at hcall
      obtain ⟨y, hy⟩ := exceptMap_ok_forall hcall idn hmem
      cases idn with
      | nil => simp at hi
      | cons a rest =>
        simp only [aggregateCell] at hy
        cases hfi : fancyIndex data (a :: rest) with
        | error e =>
          rw [hfi] at hy
          exact Except.noConfusion hy
        | ok vals =>
          obtain ⟨v, hv⟩ := exceptMap_ok_forall hfi i hi
          rw [List.get?_eq_none.2 hlen] at hv
          exact Except.noConfusion hv
    | error e =>
      cases e
      rfl
  · unfold load_csv_gz AggregatorMapping.save_csv_gz
    rw [loadTable_saveTable]
    rfl

/-- Witness for C5_lazy_index_range_error: index 2 against a fine array
of length 1. -/
theorem C5_lazy_index_range_error_witness :
    (mkAggregatorMapping [[2]]).call
        [{ val := (4 : ℚ), mask := false }] maMedian 0 =
        .error AggError.indexRange ∧
      (mkAggregatorMapping (mkAggregatorMapping [[2]]).indices).indices =
        (mkAggregatorMapping [[2]]).indices ∧
      load_csv_gz (mkAggregatorMapping [[2]]).save_csv_gz =
        .ok (mkAggregatorMapping [[2]]) :=
  C5_lazy_index_range_error (mkAggregatorMapping [[2]])
    [{ val := (4 : ℚ), mask := false }] maMedian 0
    ⟨[2], by simp [mkAggregatorMapping], 2, by simp, by simp⟩

/-- C6 is corrected, not confirmed: the ValueError raised by int() on a
non-integer token carries the offending token, not the offending line.
The two tables here have their non-integer token on different lines
(line 0 and line 1) yet produce identical errors, so the error cannot
identify the offending line; no partial mapping is returned in either
case. -/
theorem C6_counterexample :
    loadTable [["x"], ["7"]] = .error (ParseErr.invalidLiteral "x") ∧
      loadTable [["7"], ["x"]] = .error (ParseErr.invalidLiteral "x") ∧
      load_csv_gz [["x"], ["7"]] = load_csv_gz [["7"], ["x"]] :=
  ⟨rfl, rfl, rfl⟩

/-- C6 (amended): for every stored table containing a line with a
non-integer token, load_csv_gz fails with a ValueError identifying the
offending token (not the line), and returns no partial mapping. -/
theorem C6_parse_failure_no_partial (t : List (List String))
    (h : ∃ line ∈ t, ∃ tok ∈ line, pyIntNat? tok = none) :
    ∃ tok, pyIntNat? tok = none ∧ (∃ line ∈ t, tok ∈ line) ∧
      load_csv_gz t = .error (ParseErr.invalidLiteral tok) := by
  cases hlt : loadTable t with
  | ok idx =>
    exfalso
    obtain ⟨line, hline, tok, htok, hbad⟩ := h
    obtain ⟨row, hrow⟩ := exceptMap_ok_forall hlt line hline
    obtain ⟨n, hn⟩ := exceptMap_ok_forall hrow tok htok
    simp only [pyInt] at hn
    rw [hbad] at hn
    exact Except.noConfusion hn
  | error e =>
    obtain ⟨line, hline, hrow⟩ := exceptMap_error_mem hlt
    obtain ⟨tok, htok, he, hbad⟩ := row_error_token hrow
    refine ⟨tok, hbad, ⟨line, hline, htok⟩, ?_⟩
    unfold load_csv_gz
    rw [hlt, he]

/-- Witness for C6_parse_failure_no_partial at a one-line table holding
the non-integer token x. -/
theorem C6_parse_failure_no_partial_witness :
    ∃ tok, pyIntNat? tok = none ∧ (∃ line ∈ [["x"]], tok ∈ line) ∧
      load_csv_gz [["x"]] = .error (ParseErr.invalidLiteral tok) :=
  C6_parse_failure_no_partial [["x"]] ⟨["x"], by simp, "x", by simp, rfl⟩

/-- C7: __init__ stores as many index lists as the incoming sequence
holds (size is their count), and whenever __call__ returns a coarse
array its length equals the mapping size, for every fine array,
reduction method and fill value. -/
theorem C7_sizes {α : Type} (ls : List (List Nat))
    (m : AggregatorMapping) (data : List (MaskedVal α))
    (method : List (MaskedVal α) → MaskedVal α) (fv : α) (out : List α)
    (hout : m.call data method fv = .ok out) :
    (mkAggregatorMapping ls).size = ls.length ∧ out.length = m.size := by
  refine ⟨rfl, ?_⟩
  rw [call_eq] at hout
  exact exceptMap_ok_length hout

/-- Witness for C7_sizes: two index lists give size 2 and a coarse
array of length 2. -/
theorem C7_sizes_witness :
    (mkAggregatorMapping [[0], []]).size = 2 ∧
      ([5, -1] : List ℚ).length = (mkAggregatorMapping [[0], []]).size :=
  C7_sizes [[0], []] (mkAggregatorMapping [[0], []])
    [{ val := (5 : ℚ), mask := false }] maMedian (-1) [5, -1] rfl

/-- C8: the progress parameter is advisory: for every progress interval
p, the index lists built by Aggregator.__init__ and the coarse array
computed by AggregatorMapping.__call__ are exactly those produced with
progress reporting disabled (p = 0 encodes progress=False). -/
theorem C8_progress_advisory {Pt : Type} {α : Type}
    (paths : List (MPath Pt)) (points : List Pt) (p : Nat)
    (m : AggregatorMapping) (data : List (MaskedVal α))
    (method : List (MaskedVal α) → MaskedVal α) (fv : α) :
    (Aggregator.buildP paths points p).1 = Aggregator.build paths points ∧
      (m.callP data method fv p).1 = m.call data method fv := by
  constructor
  · rw [build_eq]
    exact buildLoop_fst
  · rw [call_eq]
    exact aggLoop_fst

/-- C9 is corrected, not confirmed: the comprehension
[idx for idx in indices] of __init__ copies only the outer sequence;
the inner index lists remain the very objects the caller passed in.
Here the mapping is built from one inner-list reference, and mutating
that inner list afterwards (two heaps differing at the reference)
changes the index lists the mapping presents. -/
theorem C9_counterexample :
    readIndices (fun _ => [1]) (initIndicesRefs [0]) ≠
      readIndices (fun _ => [2]) (initIndicesRefs [0]) := by
  intro h
  exact absurd (List.head_eq_of_cons_eq h) (by simp)

/-- C9 (amended): __init__ materializes the outer sequence only: the
number of index lists is fixed at construction, and the mapping is
unaffected by mutations that leave the inner list objects the caller
passed in unchanged; mutating one of those inner lists, however,
remains visible through the mapping. -/
theorem C9_outer_materialization (refs : List Nat) (h h2 : PyHeap)
    (hagree : ∀ r ∈ refs, h r = h2 r) :
    readIndices h (initIndicesRefs refs) =
        readIndices h2 (initIndicesRefs refs) ∧
      (readIndices h (initIndicesRefs refs)).length = refs.length := by
  constructor
  · unfold readIndices initIndicesRefs
    rw [List.map_map, List.map_map]
    exact List.map_congr_left (fun r hr => hagree r hr)
  · unfold readIndices initIndicesRefs
    rw [List.length_map, List.length_map]

/-- Witness for C9_outer_materialization: two heaps agreeing on the one
reference held by the mapping present the same index lists. -/
theorem C9_outer_materialization_witness :
    readIndices (fun _ => [3]) (initIndicesRefs [0]) =
        readIndices (fun r => if r = 0 then [3] else []) (initIndicesRefs [0]) ∧
      (readIndices (fun _ => [3]) (initIndicesRefs [0])).length = 1 :=
  C9_outer_materialization [0] (fun _ => [3])
    (fun r => if r = 0 then [3] else [])
    (fun r hr => by
      rw [List.mem_singleton] at hr
      subst hr
      rfl)

/-- C10: every index list built by Aggregator.__init__ is strictly
increasing (hence duplicate-free) and each entry is a valid position in
the point sequence: at least 0 and less than the number of points. -/
theorem C10_builder_invariants {Pt : Type}
    (paths : List (MPath Pt)) (points : List Pt) (l : List Nat)
    (hl : l ∈ Aggregator.build paths points) :
    List.Pairwise (· < ·) l ∧ l.Nodup ∧
      ∀ i ∈ l, 0 ≤ i ∧ i < points.length := by
  rw [build_eq] at hl
  obtain ⟨path, hpath, rfl⟩ := List.mem_map.1 hl
  rcases cellIndices_cases path points with hc | hc <;> rw [hc]
  · exact ⟨List.Pairwise.nil, List.nodup_nil, by simp⟩
  · have hlen : (path.contains_points points).length = points.length :=
      List.length_map points path.contains
    have hsub := npWhere_sublist_range (path.contains_points points)
    rw [hlen] at hsub
    have hpw : List.Pairwise (· < ·) (npWhere (path.contains_points points)) :=
      (List.pairwise_lt_range points.length).sublist hsub
    refine ⟨hpw, hpw.imp (fun hab => Nat.ne_of_lt hab), ?_⟩
    intro i hi
    exact ⟨Nat.zero_le i, List.mem_range.1 (hsub.mem hi)⟩

/-- Witness for C10_builder_invariants: the one index list built for
the unit square over a single point is [0], strictly increasing,
duplicate-free and in range. -/
theorem C10_builder_invariants_witness :
    List.Pairwise (· < ·) [0] ∧ ([0] : List Nat).Nodup ∧
      ∀ i ∈ ([0] : List Nat), 0 ≤ i ∧ i < [((0 : ℚ), (0 : ℚ))].length :=
  C10_builder_invariants [squarePath] [((0 : ℚ), (0 : ℚ))] [0]
    (by rw [show Aggregator.build [squarePath] [((0 : ℚ), (0 : ℚ))] = [[0]]
          from rfl]
        exact List.mem_singleton.2 rfl)
